import Mathlib

/-!
Verification development for the temple-flowers-admin repository.

The repository is a React admin dashboard over a Supabase order table.  The
computational core modelled here is:

* the Orders view pipeline (`src/unnamed/part_001`, second and third
  documents): client-side filter, stable sort, and fixed-size pagination of
  the fetched order list, plus the PDF/print export adapters;
* the Dashboard aggregator (`src/unnamed/part_001`, first document):
  the 14-day daily order-count series;
* the CustomerEmails aggregation (`src/src/pages/admin/CustomerEmails.tsx`
  and its dummy-data variant in `src/unnamed/part_001`, fourth document):
  fold of orders into one row per email, the post-aggregation filter, and
  the CSV/copy-all exports.

Modelling conventions:

* JavaScript strings are modelled as Lean `String`; JS relational operators
  on strings (`<`, `>`, `<=`, `>=`) are UTF-16 code-unit lexicographic and
  are modelled by Lean's lexicographic `String` order (identical on the
  Basic Multilingual Plane, which covers all data handled here).
* `String.prototype.toLowerCase` is modelled by `jsToLower`, mapping
  `Char.toLower` over the characters (ASCII case folding; all
  status/slot/field constants are ASCII).
* `new Date(s).getTime()` is modelled by `jsTime : String → Option Int`
  returning epoch milliseconds, `none` standing for `NaN` (invalid date).
  A date-time string without a UTC offset is interpreted as UTC, i.e. the
  viewer's local timezone is modelled as UTC; Supabase timestamps always
  carry an explicit offset, so this choice is invisible on real data.
* The viewer's "today" is a civil day number (days since the Unix epoch);
  calendar-day bucketing of an instant is floor-division of its epoch
  milliseconds by 86400000 (UTC calendar).
-/

/-- A digit character's numeric value. -/
def digitVal? (c : Char) : Option Nat :=
  if c.isDigit then some (c.toNat - 48) else none

/-- Two-digit decimal numeral. -/
def parse2 (a b : Char) : Option Nat := do
  let x ← digitVal? a
  let y ← digitVal? b
  pure (10 * x + y)

/-- Four-digit decimal numeral. -/
def parse4 (a b c d : Char) : Option Nat := do
  let x ← parse2 a b
  let y ← parse2 c d
  pure (100 * x + y)

/-- `needle` is a prefix of `hay` (character lists). -/
def charsPrefix : List Char → List Char → Bool
  | [], _ => true
  | _ :: _, [] => false
  | a :: as, b :: bs => a == b && charsPrefix as bs

/-- `needle` occurs as a contiguous run in `hay`. -/
def charsContains (needle : List Char) : List Char → Bool
  | [] => needle.isEmpty
  | c :: cs => charsPrefix needle (c :: cs) || charsContains needle cs

/-- Model of JavaScript `hay.includes(needle)`: substring containment,
true for the empty needle. -/
def strIncludes (hay needle : String) : Bool :=
  charsContains needle.data hay.data

/-- Model of `String.prototype.toLowerCase`: `Char.toLower` on each
character. -/
def jsToLower (s : String) : String := String.mk (s.data.map Char.toLower)

/-- Executable lexicographic comparison of character lists. -/
def charsLT : List Char → List Char → Bool
  | _, [] => false
  | [], _ :: _ => true
  | a :: as, b :: bs => if a < b then true else if b < a then false else charsLT as bs

/-- Model of the JS string comparison `a < b` (code-unit lexicographic). -/
def jsStrLT (a b : String) : Bool := charsLT a.data b.data

/-- Model of the JS string comparison `a > b` (code-unit lexicographic). -/
def jsStrGT (a b : String) : Bool := jsStrLT b a

/-- Gregorian leap-year test. -/
def isLeapYear (y : Int) : Bool :=
  (y % 4 == 0 && y % 100 != 0) || y % 400 == 0

/-- Number of days in month `m` (1-based) of year `y`. -/
def daysInMonth (y : Int) (m : Nat) : Nat :=
  match m with
  | 1 => 31
  | 2 => if isLeapYear y then 29 else 28
  | 3 => 31
  | 4 => 30
  | 5 => 31
  | 6 => 30
  | 7 => 31
  | 8 => 31
  | 9 => 30
  | 10 => 31
  | 11 => 30
  | 12 => 31
  | _ => 0

/-- Days since 1970-01-01 of the civil date `y-m-d` (proleptic Gregorian). -/
def daysFromCivil (y : Int) (m d : Nat) : Int :=
  let yy : Int := if m ≤ 2 then y - 1 else y
  let era : Int := Int.fdiv yy 400
  let yoe : Nat := (yy - era * 400).toNat
  let mp : Nat := (m + 9) % 12
  let doy : Nat := (153 * mp + 2) / 5 + d - 1
  let doe : Nat := yoe * 365 + yoe / 4 - yoe / 100 + doy
  era * 146097 + (doe : Int) - 719468

/-- Civil date `(y, m, d)` of a day count since 1970-01-01. -/
def civilFromDays (z : Int) : Int × Nat × Nat :=
  let z2 : Int := z + 719468
  let era : Int := Int.fdiv z2 146097
  let doe : Nat := (z2 - era * 146097).toNat
  let yoe : Nat := (doe - doe / 1460 + doe / 36524 - doe / 146096) / 365
  let doy : Nat := doe - (365 * yoe + yoe / 4 - yoe / 100)
  let mp : Nat := (5 * doy + 2) / 153
  let d : Nat := doy - (153 * mp + 2) / 5 + 1
  let m : Nat := if mp < 10 then mp + 3 else mp - 9
  (era * 400 + (yoe : Int) + (if m ≤ 2 then 1 else 0), m, d)

/-- Fractional-second digits to milliseconds (first three digits, padded). -/
def msOfFracDigits : List Nat → Nat
  | [] => 0
  | [a] => a * 100
  | [a, b] => a * 100 + b * 10
  | a :: b :: c :: _ => a * 100 + b * 10 + c

/-- Split a leading run of decimal digits from a character list. -/
def takeDigits : List Char → (List Nat × List Char)
  | [] => ([], [])
  | c :: cs =>
    match digitVal? c with
    | some v => let p := takeDigits cs; (v :: p.1, p.2)
    | none => ([], c :: cs)

/-- UTC-offset suffix of an ISO-8601 string, in minutes east of UTC.
An absent suffix is treated as UTC (the modelled local timezone). -/
def parseOffset : List Char → Option Int
  | [] => some 0
  | ['Z'] => some 0
  | ['+', h1, h2, ':', m1, m2] => do
    let h ← parse2 h1 h2
    let mi ← parse2 m1 m2
    if h ≤ 23 && mi ≤ 59 then pure ((h * 60 + mi : Nat) : Int) else none
  | ['-', h1, h2, ':', m1, m2] => do
    let h ← parse2 h1 h2
    let mi ← parse2 m1 m2
    if h ≤ 23 && mi ≤ 59 then pure (-((h * 60 + mi : Nat) : Int)) else none
  | _ => none

/-- Time-of-day part `HH:MM[:SS[.fff]]` plus offset: milliseconds into the
day and the offset in minutes. -/
def parseTimePart : List Char → Option (Nat × Int)
  | h1 :: h2 :: ':' :: mi1 :: mi2 :: rest => do
    let h ← parse2 h1 h2
    let mi ← parse2 mi1 mi2
    if h > 23 || mi > 59 then none else
      match rest with
      | ':' :: s1 :: s2 :: rest2 => do
        let s ← parse2 s1 s2
        if s > 59 then none else
          match rest2 with
          | '.' :: rest3 =>
            let p := takeDigits rest3
            if p.1.isEmpty then none else do
              let off ← parseOffset p.2
              pure ((((h * 60 + mi) * 60 + s) * 1000 + msOfFracDigits p.1, off))
          | _ => do
            let off ← parseOffset rest2
            pure ((((h * 60 + mi) * 60 + s) * 1000, off))
      | _ => do
        let off ← parseOffset rest
        pure (((h * 60 + mi) * 60000, off))
  | _ => none

/-- Model of JavaScript `new Date(s).getTime()` on ISO-8601 strings:
epoch milliseconds, or `none` for `NaN` (invalid date).  Handles
`YYYY-MM-DD` and `YYYY-MM-DDTHH:MM[:SS[.fff…]][Z|±HH:MM]`. -/
def jsTime (s : String) : Option Int :=
  match s.data with
  | y1 :: y2 :: y3 :: y4 :: '-' :: mo1 :: mo2 :: '-' :: d1 :: d2 :: rest => do
    let y ← parse4 y1 y2 y3 y4
    let mo ← parse2 mo1 mo2
    let d ← parse2 d1 d2
    if mo < 1 || mo > 12 || d < 1 || d > daysInMonth (y : Int) mo then none else
      let dayMs : Int := daysFromCivil (y : Int) mo d * 86400000
      match rest with
      | [] => pure dayMs
      | 'T' :: rest2 => do
        let p ← parseTimePart rest2
        pure (dayMs + (p.1 : Int) - p.2 * 60000)
      | _ => none
  | _ => none

/-- Civil day number (days since the epoch, UTC calendar) of an instant. -/
def dayOfMs (ms : Int) : Int := Int.fdiv ms 86400000

/-- Calendar day an order timestamp falls on, `none` when unparseable. -/
def jsDay (s : String) : Option Int := (jsTime s).map dayOfMs

/-- An order row of the `flower_orders` table (§3 of the spec). -/
structure Order where
  id : String
  customer_name : String
  email : String
  phone_number : String
  pickup_date : String
  time_slot : String
  special_requests : Option String
  status : String
  created_at : String
deriving DecidableEq, Repr

/-- The Orders view's filter configuration (`search`, `statusFilter`,
`dateFilter` component state). -/
structure OrderFilter where
  search : String
  statusFilter : String
  dateFilter : String
deriving DecidableEq, Repr

/-- The filter predicate of the Orders view (`src/unnamed/part_001`
lines 452–458 / 189–195): search text lowercased once, then matched
against lowercased name, lowercased email, or the raw phone; status
exact unless "all"; pickup date exact unless empty. -/
def matchesFilters (f : OrderFilter) (o : Order) : Bool :=
  let q := jsToLower f.search
  let matchesSearch := q == "" || strIncludes (jsToLower o.customer_name) q
    || strIncludes (jsToLower o.email) q || strIncludes o.phone_number q
  let matchesStatus := f.statusFilter == "all" || o.status == f.statusFilter
  let matchesDate := f.dateFilter == "" || o.pickup_date == f.dateFilter
  matchesSearch && matchesStatus && matchesDate

/-- `orders.filter(...)` of the Orders view. -/
def filterOrders (f : OrderFilter) (orders : List Order) : List Order :=
  orders.filter (matchesFilters f)

example : jsTime "1970-01-01" = some 0 := by decide
example : jsTime "1970-01-02T00:00:00Z" = some 86400000 := by decide
example : jsTime "2026-02-14T23:59:59.500Z" = some 1771113599500 := by
  unfold jsTime parseTimePart parseOffset daysFromCivil
  decide
example : jsTime "2026-02-30" = none := by decide
example : strIncludes "Hello" "ell" = true := by decide
example : strIncludes "Hello" "" = true := by decide
example : strIncludes "Hello" "hel" = false := by decide

/-- The five sortable columns of the Orders view (`type SortField`). -/
inductive SortField
  | created_at
  | pickup_date
  | customer_name
  | phone_number
  | time_slot
deriving DecidableEq, Repr

/-- Sort direction (`"asc" | "desc"`). -/
inductive SortDir
  | asc
  | desc
deriving DecidableEq, Repr

/-- A JS comparison value as produced by the sort comparator's `switch`:
either a string key or a numeric key (`none` = `NaN`). -/
inductive JSVal
  | str (s : String)
  | num (n : Option Int)
deriving DecidableEq, Repr

/-- `aVal`/`bVal` of the Orders comparator (`src/unnamed/part_001`
lines 460–483): lowercased name, raw phone and slot, `getTime()` of
pickup date and created timestamp. -/
def sortVal : SortField → Order → JSVal
  | .customer_name, o => .str (jsToLower o.customer_name)
  | .phone_number, o => .str o.phone_number
  | .time_slot, o => .str o.time_slot
  | .pickup_date, o => .num (jsTime o.pickup_date)
  | .created_at, o => .num (jsTime o.created_at)

/-- JS `<` on comparator values; any comparison against `NaN` is false. -/
def jsValLT : JSVal → JSVal → Bool
  | .str a, .str b => jsStrLT a b
  | .num (some a), .num (some b) => decide (a < b)
  | _, _ => false

/-- The comparator passed to `filtered.sort` (lines 484–486):
`-1`/`1`/`0` by `<`/`>` on the keys, flipped for descending. -/
def jsCompare (f : SortField) (dir : SortDir) (a b : Order) : Int :=
  let av := sortVal f a
  let bv := sortVal f b
  if jsValLT av bv then (match dir with | .asc => -1 | .desc => 1)
  else if jsValLT bv av then (match dir with | .asc => 1 | .desc => -1)
  else 0

/-- Stable insertion guided by a JS comparator: the new element passes
exactly the elements strictly before it, so it lands before its ties. -/
def insertByCmp (cmp : α → α → Int) (x : α) : List α → List α
  | [] => [x]
  | y :: ys => if cmp y x < 0 then y :: insertByCmp cmp x ys else x :: y :: ys

/-- Model of `Array.prototype.sort(cmp)`: a stable sort with respect to
the comparator (ECMAScript 2019 requires sort stability). -/
def sortByCmp (cmp : α → α → Int) : List α → List α
  | [] => []
  | x :: xs => insertByCmp cmp x (sortByCmp cmp xs)

/-- `filtered.sort(comparator)` of the Orders view. -/
def sortOrders (f : SortField) (dir : SortDir) (l : List Order) : List Order :=
  sortByCmp (jsCompare f dir) l

/-- `const PAGE_SIZE = 10`. -/
def PAGE_SIZE : Nat := 10

/-- `Math.ceil(filtered.length / PAGE_SIZE)` (line 489 / 203). -/
def totalPages (n : Nat) : Nat := (n + PAGE_SIZE - 1) / PAGE_SIZE

/-- `filtered.slice(page * PAGE_SIZE, (page + 1) * PAGE_SIZE)`
(line 490 / 204). -/
def paginate (l : List Order) (page : Nat) : List Order :=
  (l.drop (page * PAGE_SIZE)).take PAGE_SIZE

/-- The Dashboard 14-day series (`src/unnamed/part_001` lines 30–37),
with the viewing day given as a civil day number: entry `i` is the day
`today - 13 + i` and the count of orders created on that calendar day.
The JS builds the label by formatting the same date; the day number
stands for the label here. -/
def lineData (today : Int) (orders : List Order) : List (Int × Nat) :=
  (List.range 14).map (fun (i : Nat) =>
    let day := today - 13 + (i : Int)
    (day, (orders.filter (fun o => jsDay o.created_at == some day)).length))

/-- A customer aggregate row (derived, keyed by email). -/
structure CustomerAgg where
  email : String
  name : String
  count : Nat
  lastDate : String
deriving DecidableEq, Repr

/-- Fresh accumulator row for a first-seen email
(`map.set(o.email, {email, name, count: 1, lastDate: created_at})`). -/
def rowOfOrder (o : Order) : CustomerAgg :=
  { email := o.email, name := o.customer_name, count := 1, lastDate := o.created_at }

/-- In-place update of an existing row: `count++`, and when this order's
created timestamp is strictly greater as a string, take its date and name
(`CustomerEmails.tsx` lines 32–37). -/
def updateRow (c : CustomerAgg) (o : Order) : CustomerAgg :=
  if jsStrGT o.created_at c.lastDate then
    { c with count := c.count + 1, lastDate := o.created_at, name := o.customer_name }
  else
    { c with count := c.count + 1 }

/-- One step of the aggregation fold over the order list.  A JS `Map`
keeps insertion order and in-place updates do not move a key, so the
accumulator is a list: update the matching row in place, or append. -/
def aggStep (acc : List CustomerAgg) (o : Order) : List CustomerAgg :=
  if acc.any (fun c => c.email == o.email) then
    acc.map (fun c => if c.email == o.email then updateRow c o else c)
  else
    acc ++ [rowOfOrder o]

/-- `customers` of `CustomerEmails.tsx` (lines 28–43): fold the fetched
orders in order into one row per email. -/
def aggregateCustomers (orders : List Order) : List CustomerAgg :=
  orders.foldl aggStep []

/-- The CustomerEmails filter configuration. -/
structure CustomerFilter where
  search : String
  minOrders : String
  dateFrom : String
  dateTo : String
deriving DecidableEq, Repr

/-- `parseInt` as applied to the min-orders select values: the leading
run of decimal digits, `none` for `NaN` when there is none. -/
def jsParseInt (s : String) : Option Nat :=
  match takeDigits s.data with
  | ([], _) => none
  | (ds, _) => some (ds.foldl (fun a d => a * 10 + d) 0)

/-- The CustomerEmails filter predicate (`CustomerEmails.tsx` lines 45–52):
search over email/name, count threshold, and `lastDate` compared as a
string against `dateFrom` and `dateTo + "T23:59:59"`. -/
def custMatches (f : CustomerFilter) (c : CustomerAgg) : Bool :=
  let q := jsToLower f.search
  let matchesSearch := q == "" || strIncludes (jsToLower c.email) q
    || strIncludes (jsToLower c.name) q
  let matchesMin := f.minOrders == "all" ||
    (match jsParseInt f.minOrders with
     | some n => decide (n ≤ c.count)
     | none => false)
  let matchesFrom := f.dateFrom == "" || !jsStrGT f.dateFrom c.lastDate
  let matchesTo := f.dateTo == "" || !jsStrGT c.lastDate (f.dateTo ++ "T23:59:59")
  matchesSearch && matchesMin && matchesFrom && matchesTo

/-- `customers.filter(...)` of the CustomerEmails view. -/
def filterCustomers (f : CustomerFilter) (cs : List CustomerAgg) : List CustomerAgg :=
  cs.filter (custMatches f)

/-- Zero-pad a numeral to the given width. -/
def padNat (width n : Nat) : String :=
  let s := toString n
  String.mk (List.replicate (width - s.length) '0') ++ s

/-- `date-fns` pattern `yyyy-MM-dd` of a civil day number. -/
def ymdString (z : Int) : String :=
  let c := civilFromDays z
  (if c.1 < 0 then "-" ++ padNat 4 c.1.natAbs else padNat 4 c.1.toNat)
    ++ "-" ++ padNat 2 c.2.1 ++ "-" ++ padNat 2 c.2.2

/-- `format(new Date(s), "yyyy-MM-dd")`; `format` throws on an invalid
date, modelled by a marker string. -/
def jsFormatYMD (s : String) : String :=
  match jsTime s with
  | some ms => ymdString (dayOfMs ms)
  | none => "Invalid Date"

/-- English month abbreviations used by `date-fns` pattern `MMM`. -/
def monthAbbrev : Nat → String
  | 1 => "Jan"
  | 2 => "Feb"
  | 3 => "Mar"
  | 4 => "Apr"
  | 5 => "May"
  | 6 => "Jun"
  | 7 => "Jul"
  | 8 => "Aug"
  | 9 => "Sep"
  | 10 => "Oct"
  | 11 => "Nov"
  | 12 => "Dec"
  | _ => ""

/-- `date-fns` pattern `MMM d, yyyy` of a civil day number. -/
def mmmDyyyyString (z : Int) : String :=
  let c := civilFromDays z
  monthAbbrev c.2.1 ++ " " ++ toString c.2.2 ++ ", "
    ++ (if c.1 < 0 then "-" ++ padNat 4 c.1.natAbs else padNat 4 c.1.toNat)

/-- `format(new Date(s), "MMM d, yyyy")`, as in the table and exports. -/
def jsFormatMMMd (s : String) : String :=
  match jsTime s with
  | some ms => mmmDyyyyString (dayOfMs ms)
  | none => "Invalid Date"

/-- Model of JavaScript `Array.prototype.join(sep)`. -/
def jsJoin (sep : String) : List String → String
  | [] => ""
  | [a] => a
  | a :: b :: rest => a ++ sep ++ jsJoin sep (b :: rest)

/-- One CSV data row of `exportCSV` (`CustomerEmails.tsx` line 62):
email, double-quoted name, count, formatted date. -/
def csvRow (c : CustomerAgg) : String :=
  c.email ++ ",\"" ++ c.name ++ "\"," ++ toString c.count ++ "," ++ jsFormatYMD c.lastDate

/-- The full CSV text of `exportCSV` (lines 60–63): header line then the
newline-joined rows. -/
def exportCSVText (l : List CustomerAgg) : String :=
  "Email,Customer Name,Total Orders,Last Order Date\n"
    ++ jsJoin "\n" (l.map csvRow)

/-- The clipboard text of `copyAll` (line 55): emails joined by `", "`. -/
def copyAllText (l : List CustomerAgg) : String :=
  jsJoin ", " (l.map (fun c => c.email))

/-- One body row of the PDF export (`src/unnamed/part_001` lines 508–516). -/
def pdfRow (o : Order) : List String :=
  [o.customer_name, o.email, o.phone_number, o.pickup_date, o.time_slot,
   o.status, jsFormatMMMd o.created_at]

/-- The `autoTable` body of `exportPDF`: one row per filtered order. -/
def pdfBody (l : List Order) : List (List String) := l.map pdfRow

/-- The three `doc.text` header lines of `exportPDF` (lines 499–503),
with the formatted generation time passed in. -/
def pdfHeaderTexts (nowStr : String) (l : List Order) : List String :=
  ["Vinayaka Pooja Flowers", "Generated: " ++ nowStr,
   toString l.length ++ " orders"]

/-- One `<tr>` of `handlePrint` (lines 528–533). -/
def printRow (o : Order) : String :=
  "<tr><td>" ++ o.customer_name ++ "</td><td>" ++ o.email ++ "</td><td>"
    ++ o.phone_number ++ "</td><td>" ++ o.pickup_date ++ "</td><td>"
    ++ o.time_slot ++ "</td><td>" ++ o.status ++ "</td><td>"
    ++ jsFormatMMMd o.created_at ++ "</td></tr>"

/-- `rows` of `handlePrint`: the per-order row strings joined by `""`. -/
def printRowsText (l : List Order) : String :=
  jsJoin "" (l.map printRow)

/-- The header paragraph of the printed page (inside line 534):
generation time, an em dash, and the result-set cardinality.  The static
surrounding HTML is not modelled. -/
def printHeaderPara (nowStr : String) (l : List Order) : String :=
  "<p>" ++ nowStr ++ " — " ++ toString l.length ++ " orders</p>"

/-- The hard-coded placeholder dataset of the dummy-merging
CustomerEmails variant (`src/unnamed/part_001` lines 711–732). -/
def DUMMY_CUSTOMERS : List CustomerAgg :=
  [{ email := "rahul.sharma@email.com", name := "Rahul Sharma", count := 5, lastDate := "2026-02-14T10:00:00Z" },
   { email := "priya.iyer@email.com", name := "Priya Iyer", count := 3, lastDate := "2026-02-13T09:00:00Z" },
   { email := "arun.kumar@email.com", name := "Arun Kumar", count := 8, lastDate := "2026-02-12T08:30:00Z" },
   { email := "lakshmi.devi@email.com", name := "Lakshmi Devi", count := 2, lastDate := "2026-02-11T14:00:00Z" },
   { email := "suresh.reddy@email.com", name := "Suresh Reddy", count := 6, lastDate := "2026-02-10T11:00:00Z" },
   { email := "meena.nair@email.com", name := "Meena Nair", count := 1, lastDate := "2026-02-09T16:00:00Z" },
   { email := "ganesh.patel@email.com", name := "Ganesh Patel", count := 4, lastDate := "2026-02-08T07:30:00Z" },
   { email := "anitha.rao@email.com", name := "Anitha Rao", count := 7, lastDate := "2026-02-07T13:00:00Z" },
   { email := "vijay.krishnan@email.com", name := "Vijay Krishnan", count := 2, lastDate := "2026-02-06T10:30:00Z" },
   { email := "deepa.menon@email.com", name := "Deepa Menon", count := 9, lastDate := "2026-02-05T15:00:00Z" },
   { email := "karthik.subram@email.com", name := "Karthik Subramanian", count := 3, lastDate := "2026-02-04T08:00:00Z" },
   { email := "revathi.bala@email.com", name := "Revathi Balasubramanian", count := 1, lastDate := "2026-02-03T12:00:00Z" },
   { email := "mohan.das@email.com", name := "Mohan Das", count := 5, lastDate := "2026-02-02T09:30:00Z" },
   { email := "sridevi.ram@email.com", name := "Sridevi Raman", count := 4, lastDate := "2026-02-01T14:30:00Z" },
   { email := "prasad.venkat@email.com", name := "Prasad Venkatesh", count := 2, lastDate := "2026-01-31T11:00:00Z" },
   { email := "kavitha.sundar@email.com", name := "Kavitha Sundaram", count := 6, lastDate := "2026-01-30T16:30:00Z" },
   { email := "ramesh.babu@email.com", name := "Ramesh Babu", count := 3, lastDate := "2026-01-29T07:00:00Z" },
   { email := "uma.mahesh@email.com", name := "Uma Maheshwari", count := 10, lastDate := "2026-01-28T13:30:00Z" },
   { email := "balaji.srinivas@email.com", name := "Balaji Srinivasan", count := 1, lastDate := "2026-01-27T10:00:00Z" },
   { email := "padma.narayanan@email.com", name := "Padma Narayanan", count := 7, lastDate := "2026-01-26T15:00:00Z" }]

/-- One step of the dummy merge (`src/unnamed/part_001` lines 768–772):
a dummy row is appended only when its email is not yet a key. -/
def dummyStep (acc : List CustomerAgg) (d : CustomerAgg) : List CustomerAgg :=
  if acc.any (fun c => c.email == d.email) then acc else acc ++ [d]

/-- `customers` of the dummy-merging CustomerEmails variant: real orders
aggregated first, then the dummy rows folded in. -/
def mergedCustomers (orders : List Order) : List CustomerAgg :=
  DUMMY_CUSTOMERS.foldl dummyStep (aggregateCustomers orders)

/-! ### Pagination lemmas (claim C3) -/

/-- Page `i + 1` of a list is page `i` of the list with the first page
dropped. -/
theorem paginate_succ (l : List Order) (i : Nat) :
    paginate l (i + 1) = paginate (l.drop PAGE_SIZE) i := by
  unfold paginate
  rw [List.drop_drop]
  congr 2
  ring

/-- Concatenating `k` pages reproduces any list of length at most
`PAGE_SIZE * k`. -/
theorem flatMap_paginate (k : Nat) :
    ∀ l : List Order, l.length ≤ PAGE_SIZE * k →
      (List.range k).flatMap (fun i => paginate l i) = l := by
  induction k with
  | zero =>
    intro l h
    simp only [Nat.mul_zero, Nat.le_zero] at h
    rw [List.eq_nil_of_length_eq_zero h]
    simp
  | succ n ih =>
    intro l h
    rw [List.range_succ_eq_map, List.flatMap_cons, List.flatMap_map]
    have h2 : ∀ i : Nat, paginate l (Nat.succ i) = paginate (l.drop PAGE_SIZE) i :=
      fun i => paginate_succ l i
    calc paginate l 0 ++ (List.range n).flatMap (fun a => paginate l (Nat.succ a))
        = paginate l 0 ++ (List.range n).flatMap (fun a => paginate (l.drop PAGE_SIZE) a) := by
          rw [List.flatMap_congr (fun a _ => h2 a)]
      _ = l.take PAGE_SIZE ++ l.drop PAGE_SIZE := by
          rw [ih (l.drop PAGE_SIZE) (by rw [List.length_drop]; simp only [PAGE_SIZE] at h ⊢; omega)]
          unfold paginate
          rw [Nat.zero_mul, List.drop_zero]
      _ = l := List.take_append_drop _ _

/-- Bundled input for the pagination witness: thirteen orders. -/
def pageSample : List Order :=
  (List.range 13).map (fun i =>
    { id := toString i, customer_name := "Asha", email := "a@x.com",
      phone_number := "9000000000", pickup_date := "2026-02-20",
      time_slot := "Morning", special_requests := none, status := "Pending",
      created_at := "2026-02-15T08:00:00+00:00" })

/-- C3: for a filtered-and-sorted set of size N the page count is the
least k with N ≤ 10·k (i.e. ceil(N/10)), every page before the last has
exactly PAGE_SIZE elements (each page being the slice
[i·10, i·10+10) by definition of `paginate`), and concatenating pages
0 … totalPages−1 in order reproduces the whole list with no duplicates
or omissions. -/
theorem C3_pagination (l : List Order) :
    (l.length ≤ PAGE_SIZE * totalPages l.length ∧
      ∀ k : Nat, l.length ≤ PAGE_SIZE * k → totalPages l.length ≤ k) ∧
    (∀ i : Nat, i + 1 < totalPages l.length → (paginate l i).length = PAGE_SIZE) ∧
    (List.range (totalPages l.length)).flatMap (fun i => paginate l i) = l := by
  refine ⟨⟨?_, ?_⟩, ?_, ?_⟩
  · simp only [totalPages, PAGE_SIZE]
    omega
  · intro k hk
    simp only [totalPages, PAGE_SIZE] at hk ⊢
    omega
  · intro i hi
    simp only [totalPages, PAGE_SIZE] at hi
    unfold paginate
    rw [List.length_take, List.length_drop]
    simp only [PAGE_SIZE]
    omega
  · exact flatMap_paginate (totalPages l.length)
      l (by simp only [totalPages, PAGE_SIZE]; omega)

/-- Pagination witness: on the concrete thirteen-order list there are two
pages, the first page is full, and the pages concatenate back to the
list. -/
theorem C3_pagination_witness :
    totalPages pageSample.length ≤ 2 ∧
    (paginate pageSample 0).length = PAGE_SIZE ∧
    (List.range (totalPages pageSample.length)).flatMap
      (fun i => paginate pageSample i) = pageSample :=
  ⟨(C3_pagination pageSample).1.2 2 (by decide),
   (C3_pagination pageSample).2.1 0 (by decide),
   (C3_pagination pageSample).2.2⟩

/-! ### Dashboard daily series (claim C5) -/

/-- Orders for the dashboard witness: two created on the viewing day
(civil day 20499 = 2026-02-15), one the day before. -/
def dashSample : List Order :=
  [{ id := "1", customer_name := "Asha", email := "a@x.com",
     phone_number := "9000000000", pickup_date := "2026-02-20",
     time_slot := "Morning", special_requests := none, status := "Pending",
     created_at := "2026-02-15T08:00:00+00:00" },
   { id := "2", customer_name := "Bina", email := "b@x.com",
     phone_number := "9000000001", pickup_date := "2026-02-21",
     time_slot := "Evening", special_requests := some "rush",
     status := "Completed", created_at := "2026-02-15T23:59:00Z" },
   { id := "3", customer_name := "Chand", email := "c@x.com",
     phone_number := "9000000002", pickup_date := "2026-02-21",
     time_slot := "Night", special_requests := none, status := "Pending",
     created_at := "2026-02-14T10:00:00Z" }]

/-- C5: for every viewing day and order set, the daily series has exactly
14 entries; entry i (0-based, so oldest first) is the calendar day
today−13+i together with the number of orders whose created timestamp
falls on that day; and on the empty order set every count is zero. -/
theorem C5_daily_series (today : Int) (orders : List Order) :
    (lineData today orders).length = 14 ∧
    (∀ i : Nat, ∀ h : i < (lineData today orders).length,
      (lineData today orders).get ⟨i, h⟩ =
        (today - 13 + (i : Int),
         orders.countP (fun o => jsDay o.created_at == some (today - 13 + (i : Int))))) ∧
    (lineData today []).all (fun p => p.2 == 0) = true := by
  refine ⟨?_, ?_, ?_⟩
  · simp only [lineData, List.length_map, List.length_range]
  · intro i h
    simp only [lineData, List.get_eq_getElem, List.getElem_map,
      List.getElem_range, List.countP_eq_length_filter]
  · simp only [lineData, List.filter_nil, List.length_nil,
      List.all_eq_true, List.mem_map]
    rintro p ⟨i, hi, rfl⟩
    rfl

/-- Daily-series witness: on the concrete order set viewed on day 20500,
the series is 14 long, the last entry counts the two orders created that
day, and the empty set gives all-zero counts. -/
theorem C5_daily_series_witness :
    (lineData 20499 dashSample).length = 14 ∧
    (lineData 20499 dashSample).get ⟨13, by decide⟩ = (20499, 2) ∧
    (lineData 20499 []).all (fun p => p.2 == 0) = true := by
  refine ⟨(C5_daily_series 20499 dashSample).1, ?_, (C5_daily_series 20499 []).2.2⟩
  rw [(C5_daily_series 20499 dashSample).2.1 13 (by decide)]
  decide

/-! ### Join lemmas (claims C8, C9) -/

/-- The accumulator of `String.intercalate.go` factors out on the left. -/
theorem intercalate_go_append (s acc1 acc2 : String) (l : List String) :
    String.intercalate.go (acc1 ++ acc2) s l = acc1 ++ String.intercalate.go acc2 s l := by
  induction l generalizing acc2 with
  | nil => rfl
  | cons a as ih =>
    show String.intercalate.go (acc1 ++ acc2 ++ s ++ a) s as = _
    rw [String.append_assoc, String.append_assoc, ih, ← String.append_assoc]
    rfl

/-- The JS `join` model agrees with Lean's independent
`String.intercalate` on every list. -/
theorem jsJoin_eq_intercalate (sep : String) :
    ∀ l : List String, jsJoin sep l = String.intercalate sep l := by
  intro l
  induction l with
  | nil => rfl
  | cons a as ih =>
    cases as with
    | nil => rfl
    | cons b bs =>
      show a ++ sep ++ jsJoin sep (b :: bs) = String.intercalate.go (a ++ sep ++ b) sep bs
      rw [ih, intercalate_go_append sep (a ++ sep) b bs]
      rfl

/-- `String.join` unfolds on a cons cell. -/
theorem string_join_cons (a : String) (l : List String) :
    String.join (a :: l) = a ++ String.join l := by
  rw [String.join_eq, String.join_eq]
  rfl

/-- The JS `join("")` model agrees with Lean's `String.join`. -/
theorem jsJoin_empty (l : List String) : jsJoin "" l = String.join l := by
  induction l with
  | nil => rfl
  | cons a as ih =>
    cases as with
    | nil =>
      show a = String.join [a]
      rw [string_join_cons]
      show a = a ++ ""
      rw [String.append_empty]
    | cons b bs =>
      show a ++ "" ++ jsJoin "" (b :: bs) = String.join (a :: b :: bs)
      rw [string_join_cons, ih, String.append_empty]

/-- Aggregates for the CSV/copy witness. -/
def csvSample : List CustomerAgg :=
  [{ email := "a@x.com", name := "Asha", count := 2, lastDate := "2026-02-14T10:00:00Z" },
   { email := "b@x.com", name := "Bina", count := 1, lastDate := "2026-01-05T00:00:00Z" }]

/-- C8: the CSV export is the exact header line followed by one row per
aggregate in list order — email, double-quoted name, count, and the
`yyyy-MM-dd` date — joined line-by-line (`String.intercalate "\n"` on the
line list, for a nonempty aggregate list), the empty aggregate list
giving just the header line; and the copy-all text is the emails in list
order joined by the two-character separator `", "`. -/
theorem C8_csv_and_copy (l : List CustomerAgg) :
    (l ≠ [] → exportCSVText l =
      String.intercalate "\n" ("Email,Customer Name,Total Orders,Last Order Date" ::
        l.map (fun c => c.email ++ ",\"" ++ c.name ++ "\"," ++ toString c.count
          ++ "," ++ jsFormatYMD c.lastDate))) ∧
    exportCSVText [] = "Email,Customer Name,Total Orders,Last Order Date\n" ∧
    copyAllText l = String.intercalate ", " (l.map (fun c => c.email)) := by
  refine ⟨?_, rfl, ?_⟩
  case refine_2 =>
    show jsJoin ", " (l.map (fun c => c.email)) = _
    exact jsJoin_eq_intercalate ", " (l.map (fun c => c.email))
  intro h
  cases l with
  | nil => exact absurd rfl h
  | cons c rest =>
    rw [← jsJoin_eq_intercalate]
    rfl

/-- CSV/copy witness: concrete two-row aggregate list. -/
theorem C8_csv_and_copy_witness :
    exportCSVText csvSample =
      "Email,Customer Name,Total Orders,Last Order Date\na@x.com,\"Asha\",2,2026-02-14\nb@x.com,\"Bina\",1,2026-01-05" ∧
    copyAllText csvSample = "a@x.com, b@x.com" := by
  constructor
  · rw [(C8_csv_and_copy csvSample).1 (by decide)]
    decide
  · rw [(C8_csv_and_copy csvSample).2.2]
    decide

/-- C9: the PDF body has exactly one row per filtered order, positionally
identical to the filtered list (so nothing is refiltered, re-sorted,
inserted, or omitted); the PDF header block contains the generation
timestamp line and the cardinality line; the print rows string is the
order-preserving concatenation of one row per filtered order; and the
print header paragraph carries the generation timestamp followed by the
cardinality. -/
theorem C9_export_fidelity (nowStr : String) (l : List Order) :
    (pdfBody l).length = l.length ∧
    (∀ i : Nat, (pdfBody l)[i]? = (l[i]?).map pdfRow) ∧
    ("Generated: " ++ nowStr) ∈ pdfHeaderTexts nowStr l ∧
    (toString l.length ++ " orders") ∈ pdfHeaderTexts nowStr l ∧
    printRowsText l = String.join (l.map printRow) ∧
    (∃ pre mid : String, printHeaderPara nowStr l = pre ++ nowStr ++ mid ∧
      mid = " — " ++ toString l.length ++ " orders</p>") := by
  refine ⟨List.length_map l pdfRow, ?_, ?_, ?_, jsJoin_empty (l.map printRow), ?_⟩
  · intro i
    exact List.getElem?_map pdfRow l i
  · simp [pdfHeaderTexts]
  · simp [pdfHeaderTexts]
  · refine ⟨"<p>", " — " ++ toString l.length ++ " orders</p>", ?_, rfl⟩
    simp [printHeaderPara, String.append_assoc]

/-! ### Order-list filter (claim C1) -/

/-- Lowercasing does not change whether a string is empty. -/
theorem jsToLower_eq_empty (s : String) : (jsToLower s == "") = (s == "") := by
  cases s with
  | mk l =>
    cases l with
    | nil => rfl
    | cons c cs =>
      show (String.mk (Char.toLower c :: cs.map Char.toLower) == String.mk []) = _
      simp [String.ext_iff]

/-- The claim's search predicate read literally: case-insensitive
substring match of the search text against customer name or email, or
exact substring of the raw search text against the phone; vacuously true
for empty search text. -/
def claimSearchPred (search : String) (o : Order) : Bool :=
  search == "" || strIncludes (jsToLower o.customer_name) (jsToLower search)
    || strIncludes (jsToLower o.email) (jsToLower search)
    || strIncludes o.phone_number search

/-- The amended search predicate: identical except that the phone is
matched against the lowercased search text, as the code does. -/
def amendedSearchPred (search : String) (o : Order) : Bool :=
  search == "" || strIncludes (jsToLower o.customer_name) (jsToLower search)
    || strIncludes (jsToLower o.email) (jsToLower search)
    || strIncludes o.phone_number (jsToLower search)

/-- Claim predicate: status equal unless the filter is "all". -/
def claimStatusPred (statusFilter : String) (o : Order) : Bool :=
  statusFilter == "all" || o.status == statusFilter

/-- Claim predicate: pickup date equal unless the filter is empty. -/
def claimDatePred (dateFilter : String) (o : Order) : Bool :=
  dateFilter == "" || o.pickup_date == dateFilter

/-- Order exposing the phone-matching discrepancy: its phone field
contains an uppercase letter. -/
def cexOrder : Order :=
  { id := "1", customer_name := "x", email := "y", phone_number := "A1",
    pickup_date := "2026-02-20", time_slot := "Morning",
    special_requests := none, status := "Pending",
    created_at := "2026-02-15T08:00:00Z" }

/-- Filter configuration with an uppercase search text. -/
def cexFilter : OrderFilter :=
  { search := "A1", statusFilter := "all", dateFilter := "" }

/-- Counterexample to C1 as stated: with search text "A1", an order whose
phone is "A1" satisfies all three claim predicates (exact substring on
phone), yet the pipeline excludes it, because the code lowercases the
search text before the phone comparison. -/
theorem C1_filter_counterexample :
    (cexOrder ∈ [cexOrder] ∧ claimSearchPred cexFilter.search cexOrder = true ∧
      claimStatusPred cexFilter.statusFilter cexOrder = true ∧
      claimDatePred cexFilter.dateFilter cexOrder = true) ∧
    cexOrder ∉ filterOrders cexFilter [cexOrder] := by
  decide

/-- C1 amended: the filtered set contains exactly the orders satisfying
the conjunction of the three predicates, with the phone matched against
the lowercased search text. -/
theorem C1_filter_amended (f : OrderFilter) (orders : List Order) (o : Order) :
    o ∈ filterOrders f orders ↔
      o ∈ orders ∧ amendedSearchPred f.search o = true ∧
        claimStatusPred f.statusFilter o = true ∧
        claimDatePred f.dateFilter o = true := by
  rw [filterOrders, List.mem_filter]
  refine and_congr_right (fun _ => ?_)
  show (matchesFilters f o = true) ↔ _
  rw [matchesFilters]
  simp only [amendedSearchPred, claimStatusPred, claimDatePred,
    jsToLower_eq_empty, Bool.and_eq_true, and_assoc]

/-! ### Customer aggregation invariant (claims C2, C10) -/

/-- Updating a row never changes its email. -/
theorem updateRow_email (c : CustomerAgg) (o : Order) :
    (updateRow c o).email = c.email := by
  unfold updateRow
  split <;> rfl

/-- Updating a row increments its count by one. -/
theorem updateRow_count (c : CustomerAgg) (o : Order) :
    (updateRow c o).count = c.count + 1 := by
  unfold updateRow
  split <;> rfl

/-- The executable comparison agrees with the `List Char` order
(lexicographic `List.Lex`). -/
theorem charsLT_iff : ∀ l1 l2 : List Char, charsLT l1 l2 = true ↔ l1 < l2 := by
  intro l1
  induction l1 with
  | nil =>
    intro l2
    cases l2 with
    | nil =>
      constructor
      · intro h
        nomatch h
      · intro h
        have h2 : List.Lex (· < ·) ([] : List Char) [] := h
        cases h2
    | cons b bs =>
      simp only [charsLT, true_iff]
      exact List.Lex.nil
  | cons a as ih =>
    intro l2
    cases l2 with
    | nil =>
      constructor
      · intro h
        nomatch h
      · intro h
        have h2 : List.Lex (· < ·) (a :: as) [] := h
        cases h2
    | cons b bs =>
      by_cases hab : a < b
      · simp only [charsLT, if_pos hab, true_iff]
        exact List.Lex.rel hab
      · by_cases hba : b < a
        · simp only [charsLT, if_neg hab, if_pos hba]
          constructor
          · intro h
            nomatch h
          · intro h
            exfalso
            have h2 : List.Lex (· < ·) (a :: as) (b :: bs) := h
            cases h2 with
            | cons h3 => exact lt_irrefl _ hba
            | rel h3 => exact hab h3
        · have heq : a = b := le_antisymm (not_lt.mp hba) (not_lt.mp hab)
          subst heq
          simp only [charsLT, if_neg hab]
          rw [ih bs]
          constructor
          · intro h
            exact List.Lex.cons h
          · intro h
            have h2 : List.Lex (· < ·) (a :: as) (a :: bs) := h
            cases h2 with
            | cons h3 => exact h3
            | rel h3 => exact absurd h3 (lt_irrefl a)

/-- The executable string comparison agrees with the string order. -/
theorem jsStrLT_iff {a b : String} : jsStrLT a b = true ↔ a < b := by
  rw [jsStrLT, charsLT_iff]
  exact String.lt_iff_toList_lt.symm

/-- `jsStrGT a b` asserts `b < a` in the string order. -/
theorem jsStrGT_lt {a b : String} (h : jsStrGT a b = true) : b < a :=
  jsStrLT_iff.mp h

/-- A failed `jsStrGT a b` asserts `a ≤ b`. -/
theorem le_of_not_jsStrGT {a b : String} (h : ¬ jsStrGT a b = true) : a ≤ b :=
  not_lt.mp (fun hl => h (jsStrLT_iff.mpr hl))

/-- Invariant of the aggregation fold relating the accumulator to the
orders already processed: rows carry emails of processed orders, every
processed email has a row, row emails are pairwise distinct, each row's
count is the number of processed orders with its email, its date and
name come from a processed order with that email, and that date is an
upper bound on the email's created timestamps. -/
def AggInv (processed : List Order) (acc : List CustomerAgg) : Prop :=
  (∀ c ∈ acc, ∃ o ∈ processed, o.email = c.email) ∧
  (∀ o ∈ processed, ∃ c ∈ acc, c.email = o.email) ∧
  (acc.map (fun c => c.email)).Nodup ∧
  (∀ c ∈ acc, c.count = processed.countP (fun o => o.email == c.email)) ∧
  (∀ c ∈ acc, ∃ o ∈ processed,
    o.email = c.email ∧ o.created_at = c.lastDate ∧ o.customer_name = c.name) ∧
  (∀ c ∈ acc, ∀ o ∈ processed, o.email = c.email → o.created_at ≤ c.lastDate)

/-- One aggregation step preserves the invariant. -/
theorem aggStep_inv {processed : List Order} {acc : List CustomerAgg} (o : Order)
    (h : AggInv processed acc) : AggInv (processed ++ [o]) (aggStep acc o) := by
  obtain ⟨h1, h2, h3, h4, h5, h6⟩ := h
  by_cases hany : acc.any (fun c => c.email == o.email) = true
  · have hstep : aggStep acc o
        = acc.map (fun c => if c.email == o.email then updateRow c o else c) := by
      unfold aggStep
      rw [if_pos hany]
    rw [hstep]
    have hge : ∀ c : CustomerAgg,
        (if c.email == o.email then updateRow c o else c).email = c.email := by
      intro c
      by_cases hc : (c.email == o.email) = true
      · rw [if_pos hc, updateRow_email]
      · rw [if_neg hc]
    refine ⟨?_, ?_, ?_, ?_, ?_, ?_⟩
    · rintro c' hc'
      obtain ⟨c, hc, rfl⟩ := List.mem_map.mp hc'
      obtain ⟨o', ho', he⟩ := h1 c hc
      exact ⟨o', List.mem_append.mpr (Or.inl ho'), he.trans (hge c).symm⟩
    · intro o' ho'
      rcases List.mem_append.mp ho' with hp | hsing
      · obtain ⟨c, hc, he⟩ := h2 o' hp
        exact ⟨_, List.mem_map_of_mem _ hc, (hge c).trans he⟩
      · rw [List.mem_singleton] at hsing
        subst hsing
        obtain ⟨c, hc, hce⟩ := List.any_eq_true.mp hany
        exact ⟨_, List.mem_map_of_mem _ hc, (hge c).trans (eq_of_beq hce)⟩
    · have hmm : (acc.map (fun c => if c.email == o.email then updateRow c o else c)).map
          (fun c => c.email) = acc.map (fun c => c.email) := by
        rw [List.map_map]
        exact List.map_congr_left (fun c _ => hge c)
      rw [hmm]
      exact h3
    · rintro c' hc'
      obtain ⟨c, hc, rfl⟩ := List.mem_map.mp hc'
      rw [hge c, List.countP_append]
      by_cases hce : (c.email == o.email) = true
      · rw [if_pos hce, updateRow_count, h4 c hc]
        have : o.email = c.email := (eq_of_beq hce).symm
        simp [List.countP_cons, this]
      · rw [if_neg hce]
        have : ¬ o.email = c.email := fun he => hce (beq_iff_eq.mpr he.symm)
        simp [List.countP_cons, this, h4 c hc]
    · rintro c' hc'
      obtain ⟨c, hc, rfl⟩ := List.mem_map.mp hc'
      by_cases hce : (c.email == o.email) = true
      · by_cases hgt : jsStrGT o.created_at c.lastDate = true
        · refine ⟨o, List.mem_append.mpr (Or.inr (List.mem_singleton_self o)), ?_, ?_, ?_⟩
          · rw [hge c]
            exact (eq_of_beq hce).symm
          · rw [if_pos hce]
            unfold updateRow
            rw [if_pos hgt]
          · rw [if_pos hce]
            unfold updateRow
            rw [if_pos hgt]
        · obtain ⟨o', ho', he', hdt, hnm⟩ := h5 c hc
          refine ⟨o', List.mem_append.mpr (Or.inl ho'), ?_, ?_, ?_⟩
          · rw [hge c]
            exact he'
          · rw [if_pos hce]
            unfold updateRow
            rw [if_neg hgt]
            exact hdt
          · rw [if_pos hce]
            unfold updateRow
            rw [if_neg hgt]
            exact hnm
      · obtain ⟨o', ho', he', hdt, hnm⟩ := h5 c hc
        rw [if_neg hce]
        exact ⟨o', List.mem_append.mpr (Or.inl ho'), he', hdt, hnm⟩
    · rintro c' hc' o' ho' hemail
      obtain ⟨c, hc, rfl⟩ := List.mem_map.mp hc'
      rw [hge c] at hemail
      rcases List.mem_append.mp ho' with hp | hsing
      · by_cases hce : (c.email == o.email) = true
        · by_cases hgt : jsStrGT o.created_at c.lastDate = true
          · rw [if_pos hce]
            unfold updateRow
            rw [if_pos hgt]
            exact le_of_lt (lt_of_le_of_lt (h6 c hc o' hp hemail) (jsStrGT_lt hgt))
          · rw [if_pos hce]
            unfold updateRow
            rw [if_neg hgt]
            exact h6 c hc o' hp hemail
        · rw [if_neg hce]
          exact h6 c hc o' hp hemail
      · rw [List.mem_singleton] at hsing
        have hce : (c.email == o.email) = true := beq_iff_eq.mpr (hsing ▸ hemail).symm
        by_cases hgt : jsStrGT o.created_at c.lastDate = true
        · rw [if_pos hce]
          unfold updateRow
          rw [if_pos hgt, hsing]
        · rw [if_pos hce]
          unfold updateRow
          rw [if_neg hgt, hsing]
          exact le_of_not_jsStrGT hgt
  · have hstep : aggStep acc o = acc ++ [rowOfOrder o] := by
      unfold aggStep
      rw [if_neg hany]
    rw [hstep]
    have hnomem : ∀ c ∈ acc, ¬ c.email = o.email := by
      intro c hc he
      exact hany (List.any_eq_true.mpr ⟨c, hc, beq_iff_eq.mpr he⟩)
    have hnoproc : ∀ o2 ∈ processed, ¬ o2.email = o.email := by
      intro o2 ho2 he
      obtain ⟨c, hc, hce⟩ := h2 o2 ho2
      exact hnomem c hc (hce.trans he)
    refine ⟨?_, ?_, ?_, ?_, ?_, ?_⟩
    · intro c' hc'
      rcases List.mem_append.mp hc' with hc | hs
      · obtain ⟨o', ho', he⟩ := h1 c' hc
        exact ⟨o', List.mem_append.mpr (Or.inl ho'), he⟩
      · rw [List.mem_singleton] at hs
        subst hs
        exact ⟨o, List.mem_append.mpr (Or.inr (List.mem_singleton_self o)), rfl⟩
    · intro o' ho'
      rcases List.mem_append.mp ho' with hp | hs
      · obtain ⟨c, hc, he⟩ := h2 o' hp
        exact ⟨c, List.mem_append.mpr (Or.inl hc), he⟩
      · rw [List.mem_singleton] at hs
        refine ⟨rowOfOrder o, List.mem_append.mpr (Or.inr (List.mem_singleton_self _)), ?_⟩
        rw [hs]
        rfl
    · rw [List.map_append, List.nodup_append]
      refine ⟨h3, List.nodup_singleton _, ?_⟩
      intro e he hs
      obtain ⟨c, hc, hce⟩ := List.mem_map.mp he
      rw [List.mem_map] at hs
      obtain ⟨d, hd, hde⟩ := hs
      rw [List.mem_singleton] at hd
      subst hd
      exact hnomem c hc (hce.trans hde.symm)
    · intro c' hc'
      rw [List.countP_append]
      rcases List.mem_append.mp hc' with hc | hs
      · have : ¬ o.email = c'.email := fun he => hnomem c' hc he.symm
        simp [List.countP_cons, this, h4 c' hc]
      · rw [List.mem_singleton] at hs
        subst hs
        have hz : processed.countP (fun o2 => o2.email == (rowOfOrder o).email) = 0 := by
          rw [List.countP_eq_zero]
          intro o2 ho2 hbe
          exact hnoproc o2 ho2 (eq_of_beq hbe)
        rw [hz]
        simp [rowOfOrder, List.countP_cons]
    · intro c' hc'
      rcases List.mem_append.mp hc' with hc | hs
      · obtain ⟨o', ho', he', hdt, hnm⟩ := h5 c' hc
        exact ⟨o', List.mem_append.mpr (Or.inl ho'), he', hdt, hnm⟩
      · rw [List.mem_singleton] at hs
        subst hs
        exact ⟨o, List.mem_append.mpr (Or.inr (List.mem_singleton_self o)), rfl, rfl, rfl⟩
    · intro c' hc' o' ho' he
      rcases List.mem_append.mp hc' with hc | hs
      · rcases List.mem_append.mp ho' with hp | hps
        · exact h6 c' hc o' hp he
        · rw [List.mem_singleton] at hps
          subst hps
          exact absurd (he.trans rfl) (fun h0 => hnomem c' hc h0.symm)
      · rw [List.mem_singleton] at hs
        subst hs
        rcases List.mem_append.mp ho' with hp | hps
        · exact absurd (he.trans rfl) (hnoproc o' hp)
        · rw [List.mem_singleton] at hps
          subst hps
          exact le_refl _

/-- Folding further orders preserves the invariant. -/
theorem foldl_aggStep_inv :
    ∀ (rest processed : List Order) (acc : List CustomerAgg),
      AggInv processed acc → AggInv (processed ++ rest) (rest.foldl aggStep acc) := by
  intro rest
  induction rest with
  | nil =>
    intro processed acc h
    simpa using h
  | cons o rest ih =>
    intro processed acc h
    have hstep := aggStep_inv o h
    have hres := ih (processed ++ [o]) (aggStep acc o) hstep
    rw [List.append_assoc] at hres
    simpa using hres

/-- The aggregation of a whole order list satisfies the invariant. -/
theorem aggregateCustomers_inv (orders : List Order) :
    AggInv orders (aggregateCustomers orders) := by
  have h0 : AggInv [] [] := by
    refine ⟨?_, ?_, ?_, ?_, ?_, ?_⟩ <;> simp
  have h := foldl_aggStep_inv orders [] [] h0
  simpa using h

/-- With pairwise-distinct row emails, the row count for any present
email is exactly one. -/
theorem countP_email_eq_one {acc : List CustomerAgg}
    (h3 : (acc.map (fun c => c.email)).Nodup) {c : CustomerAgg} (hc : c ∈ acc) :
    acc.countP (fun c2 => c2.email == c.email) = 1 := by
  have hm : c.email ∈ acc.map (fun c2 => c2.email) := List.mem_map_of_mem _ hc
  have h1 := List.count_eq_one_of_mem h3 hm
  rw [List.count_eq_countP, List.countP_map] at h1
  exact h1

/-- Orders for the aggregation witness: the spec's §8 scenario, two
orders sharing an email with names "Old Name"/"New Name", plus one other
customer. -/
def aggSample : List Order :=
  [{ id := "1", customer_name := "Old Name", email := "a@x.com",
     phone_number := "9000000000", pickup_date := "2026-02-20",
     time_slot := "Morning", special_requests := none, status := "Pending",
     created_at := "2026-01-01T00:00:00Z" },
   { id := "2", customer_name := "New Name", email := "a@x.com",
     phone_number := "9000000000", pickup_date := "2026-02-21",
     time_slot := "Evening", special_requests := none, status := "Completed",
     created_at := "2026-01-05T00:00:00Z" },
   { id := "3", customer_name := "Bina", email := "b@x.com",
     phone_number := "9000000001", pickup_date := "2026-02-21",
     time_slot := "Night", special_requests := none, status := "Pending",
     created_at := "2026-01-03T00:00:00Z" }]

/-- C2: assuming pairwise-distinct created timestamps (the backend
assigns them monotonically, spec §3), every aggregate row's email occurs
in the orders, and every occurring email has exactly one aggregate row,
whose count is the number of orders with that email, whose lastDate is
the maximum created timestamp of that email (attained by one of its
orders and an upper bound for all of them, compared as ISO-8601
strings), and whose name is the customer name of the order bearing that
maximum timestamp. -/
theorem C2_customer_aggregation (orders : List Order)
    (hd : orders.Pairwise (fun a b => a.created_at ≠ b.created_at)) :
    (∀ c ∈ aggregateCustomers orders, ∃ o ∈ orders, o.email = c.email) ∧
    (∀ e : String, (∃ o ∈ orders, o.email = e) →
      ∃ c ∈ aggregateCustomers orders,
        c.email = e ∧
        (aggregateCustomers orders).countP (fun c2 => c2.email == e) = 1 ∧
        c.count = orders.countP (fun o => o.email == e) ∧
        (∃ o ∈ orders, o.email = e ∧ o.created_at = c.lastDate ∧ o.customer_name = c.name) ∧
        (∀ o ∈ orders, o.email = e → o.created_at ≤ c.lastDate) ∧
        (∀ o ∈ orders, o.email = e → o.created_at = c.lastDate → o.customer_name = c.name)) := by
  obtain ⟨h1, h2, h3, h4, h5, h6⟩ := aggregateCustomers_inv orders
  refine ⟨h1, ?_⟩
  rintro e ⟨o, ho, rfl⟩
  obtain ⟨c, hc, hce⟩ := h2 o ho
  refine ⟨c, hc, hce, ?_, ?_, ?_, ?_, ?_⟩
  · rw [← hce]
    exact countP_email_eq_one h3 hc
  · rw [← hce]
    exact h4 c hc
  · obtain ⟨o0, ho0, he0, hd0, hn0⟩ := h5 c hc
    exact ⟨o0, ho0, he0.trans hce, hd0, hn0⟩
  · intro o2 ho2 he2
    exact h6 c hc o2 ho2 (he2.trans hce.symm)
  · intro o2 ho2 he2 hdc
    obtain ⟨o0, ho0, he0, hd0, hn0⟩ := h5 c hc
    have hsym : Symmetric (fun a b : Order => a.created_at ≠ b.created_at) :=
      fun x y h e2 => h e2.symm
    by_cases heq : o2 = o0
    · rw [heq]
      exact hn0
    · exact absurd (hdc.trans hd0.symm) (hd.forall hsym ho2 ho0 heq)

/-- Aggregation witness: the spec scenario evaluated concretely — the
shared email gets one row with count 2, lastDate the later timestamp,
and the later order's name. -/
theorem C2_customer_aggregation_witness :
    ∃ c ∈ aggregateCustomers aggSample,
      c.email = "a@x.com" ∧
      (aggregateCustomers aggSample).countP (fun c2 => c2.email == "a@x.com") = 1 ∧
      c.count = aggSample.countP (fun o => o.email == "a@x.com") ∧
      (∃ o ∈ aggSample, o.email = "a@x.com" ∧ o.created_at = c.lastDate ∧
        o.customer_name = c.name) ∧
      (∀ o ∈ aggSample, o.email = "a@x.com" → o.created_at ≤ c.lastDate) ∧
      (∀ o ∈ aggSample, o.email = "a@x.com" → o.created_at = c.lastDate →
        o.customer_name = c.name) :=
  (C2_customer_aggregation aggSample (by decide)).2 "a@x.com" (by decide)

/-! ### Dummy-data merge (claim C10) -/

/-- Folding the dummy rows appends exactly those whose email is not
already keyed, provided the dummy emails are pairwise distinct. -/
theorem foldl_dummyStep (ds : List CustomerAgg) :
    ∀ acc : List CustomerAgg, ds.Pairwise (fun a b => a.email ≠ b.email) →
      ds.foldl dummyStep acc
        = acc ++ ds.filter (fun d => !(acc.any (fun c => c.email == d.email))) := by
  induction ds with
  | nil =>
    intro acc _
    simp
  | cons d rest ih =>
    intro acc h
    obtain ⟨hd, ht⟩ := List.pairwise_cons.mp h
    rw [List.foldl_cons]
    by_cases hany : acc.any (fun c => c.email == d.email) = true
    · have hstep : dummyStep acc d = acc := by
        unfold dummyStep
        rw [if_pos hany]
      rw [hstep, ih acc ht, List.filter_cons]
      simp [hany]
    · have hstep : dummyStep acc d = acc ++ [d] := by
        unfold dummyStep
        rw [if_neg hany]
      rw [hstep, ih (acc ++ [d]) ht]
      have hfeq : rest.filter (fun r => !((acc ++ [d]).any (fun c => c.email == r.email)))
          = rest.filter (fun r => !(acc.any (fun c => c.email == r.email))) := by
        apply List.filter_congr
        intro r hr
        have hne : ¬ (d.email == r.email) = true :=
          fun hbe => hd r hr (eq_of_beq hbe)
        simp [List.any_append, hne]
      rw [hfeq, List.append_assoc, List.filter_cons]
      congr 1
      rw [Bool.not_eq_true] at hany
      simp [hany]

/-- The aggregate rows carry an email exactly when some order does. -/
theorem agg_any_email (orders : List Order) (e : String) :
    (aggregateCustomers orders).any (fun c => c.email == e)
      = orders.any (fun o => o.email == e) := by
  obtain ⟨h1, h2, _, _, _, _⟩ := aggregateCustomers_inv orders
  by_cases h : orders.any (fun o => o.email == e) = true
  · rw [h]
    obtain ⟨o, ho, hoe⟩ := List.any_eq_true.mp h
    obtain ⟨c, hc, hce⟩ := h2 o ho
    exact List.any_eq_true.mpr ⟨c, hc, beq_iff_eq.mpr (hce.trans (eq_of_beq hoe))⟩
  · have hL : ¬ (aggregateCustomers orders).any (fun c => c.email == e) = true := by
      intro hA
      obtain ⟨c, hc, hcb⟩ := List.any_eq_true.mp hA
      obtain ⟨o, ho, hoe⟩ := h1 c hc
      exact h (List.any_eq_true.mpr ⟨o, ho, beq_iff_eq.mpr (hoe.trans (eq_of_beq hcb))⟩)
    rw [Bool.not_eq_true] at hL h
    rw [hL, h]

/-- C10: the merged customer list is the real aggregation followed by
exactly those dummy rows whose email occurs in no fetched order; in
particular the rows of any email occurring in the fetched orders are
computed solely from the real orders, unaffected by the dummy data. -/
theorem C10_dummy_merge (orders : List Order) :
    mergedCustomers orders
      = aggregateCustomers orders
        ++ DUMMY_CUSTOMERS.filter (fun d => !(orders.any (fun o => o.email == d.email))) ∧
    (∀ e : String, (∃ o ∈ orders, o.email = e) →
      (mergedCustomers orders).filter (fun c => c.email == e)
        = (aggregateCustomers orders).filter (fun c => c.email == e)) := by
  have hnd : DUMMY_CUSTOMERS.Pairwise (fun a b => a.email ≠ b.email) := by decide
  have hmain : mergedCustomers orders
      = aggregateCustomers orders
        ++ DUMMY_CUSTOMERS.filter
            (fun d => !((aggregateCustomers orders).any (fun c => c.email == d.email))) :=
    foldl_dummyStep DUMMY_CUSTOMERS (aggregateCustomers orders) hnd
  have hpred : DUMMY_CUSTOMERS.filter
        (fun d => !((aggregateCustomers orders).any (fun c => c.email == d.email)))
      = DUMMY_CUSTOMERS.filter (fun d => !(orders.any (fun o => o.email == d.email))) := by
    apply List.filter_congr
    intro d _
    rw [agg_any_email]
  constructor
  · rw [hmain, hpred]
  · rintro e ⟨o, ho, rfl⟩
    rw [hmain, hpred, List.filter_append]
    have hz : (DUMMY_CUSTOMERS.filter
          (fun d => !(orders.any (fun o2 => o2.email == d.email)))).filter
            (fun c => c.email == o.email) = [] := by
      rw [List.filter_eq_nil_iff]
      intro d hdm hbe
      obtain ⟨_, hnp⟩ := List.mem_filter.mp hdm
      have hA : orders.any (fun o2 => o2.email == d.email) = true :=
        List.any_eq_true.mpr ⟨o, ho, beq_iff_eq.mpr (eq_of_beq hbe).symm⟩
      rw [Bool.not_eq_true', hA] at hnp
      cases hnp
    rw [hz, List.append_nil]

/-- Orders for the dummy-merge witness: a real order reusing a dummy
email. -/
def mergeSample : List Order :=
  [{ id := "1", customer_name := "Rahul Sharma Real", email := "rahul.sharma@email.com",
     phone_number := "9000000000", pickup_date := "2026-02-20",
     time_slot := "Morning", special_requests := none, status := "Pending",
     created_at := "2026-02-16T08:00:00+00:00" }]

/-- Dummy-merge witness: for the email shared with a dummy entry, the
merged rows equal the real-data rows. -/
theorem C10_dummy_merge_witness :
    (mergedCustomers mergeSample).filter (fun c => c.email == "rahul.sharma@email.com")
      = (aggregateCustomers mergeSample).filter (fun c => c.email == "rahul.sharma@email.com") :=
  (C10_dummy_merge mergeSample).2 "rahul.sharma@email.com" (by decide)

/-! ### Customer aggregate filter (claim C7) -/

/-- A failed JS `a > b` on strings is the Lean `a ≤ b`, at the Bool
level. -/
theorem not_jsStrGT_eq_le (a b : String) : (!jsStrGT a b) = decide (a ≤ b) := by
  by_cases h : jsStrGT a b = true
  · rw [h]
    have := jsStrGT_lt h
    symm
    simp [not_le.mpr this]
  · rw [Bool.not_eq_true] at h
    rw [h]
    symm
    simp only [Bool.not_false]
    exact decide_eq_true (le_of_not_jsStrGT (by rw [h]; exact fun hc => nomatch hc))

/-- Claim predicate: case-insensitive substring match of the search text
against email or name, vacuously true when empty. -/
def specCustSearch (search : String) (c : CustomerAgg) : Bool :=
  search == "" || strIncludes (jsToLower c.email) (jsToLower search)
    || strIncludes (jsToLower c.name) (jsToLower search)

/-- Claim predicate: order count at least the selected threshold, no
constraint for "all". -/
def specCustMin (minOrders : String) (c : CustomerAgg) : Bool :=
  minOrders == "all" ||
    (match jsParseInt minOrders with
     | some n => decide (n ≤ c.count)
     | none => false)

/-- Claim predicate: `lastDate` at or after the from-bound (string
comparison against the bare date, so the whole from-day is included);
ignored when unset. -/
def specCustFrom (dateFrom : String) (c : CustomerAgg) : Bool :=
  dateFrom == "" || decide (dateFrom ≤ c.lastDate)

/-- Amended upper-bound predicate: `lastDate` lexicographically at most
`dateTo + "T23:59:59"`; ignored when unset.  This is what the code
compares, and it excludes timestamps of the to-day's final second whose
serialization extends beyond `T23:59:59`. -/
def specCustTo (dateTo : String) (c : CustomerAgg) : Bool :=
  dateTo == "" || decide (c.lastDate ≤ dateTo ++ "T23:59:59")

/-- Aggregate exposing the upper-bound discrepancy: its last order is in
the final second of the to-day, with fractional seconds. -/
def cexCust : CustomerAgg :=
  { email := "a@x.com", name := "Asha", count := 1,
    lastDate := "2026-02-14T23:59:59.500Z" }

/-- Filter whose to-day contains `cexCust.lastDate`. -/
def cexCustFilter : CustomerFilter :=
  { search := "", minOrders := "all", dateFrom := "", dateTo := "2026-02-14" }

/-- Counterexample to C7 as stated: a lastDate in the final second of
the to-day (2026-02-14T23:59:59.500Z falls on the same calendar day as
the to-bound) is excluded by the filter, because the code compares the
ISO string against `dateTo + "T23:59:59"` and the fractional-second
serialization is lexicographically greater. -/
theorem C7_filter_counterexample :
    jsDay cexCust.lastDate = jsDay "2026-02-14" ∧
    cexCust ∈ [cexCust] ∧
    cexCust ∉ filterCustomers cexCustFilter [cexCust] := by
  decide

/-- C7 amended: the customer filter is the conjunction of the search,
threshold, from-bound, and to-bound predicates, with the to-bound a
lexicographic comparison against `dateTo + "T23:59:59"` (so timestamps
serialized past that string within the final second of the to-day are
excluded). -/
theorem C7_filter_amended (f : CustomerFilter) (cs : List CustomerAgg) (c : CustomerAgg) :
    c ∈ filterCustomers f cs ↔
      c ∈ cs ∧ specCustSearch f.search c = true ∧ specCustMin f.minOrders c = true ∧
        specCustFrom f.dateFrom c = true ∧ specCustTo f.dateTo c = true := by
  rw [filterCustomers, List.mem_filter]
  refine and_congr_right (fun _ => ?_)
  show (custMatches f c = true) ↔ _
  rw [custMatches]
  simp only [specCustSearch, specCustMin, specCustFrom, specCustTo, jsToLower_eq_empty,
    not_jsStrGT_eq_le, Bool.and_eq_true, and_assoc]

/-! ### Sorting lemmas (claims C4, C6) -/

/-- The comparator value order is asymmetric. -/
theorem jsValLT_asymm : ∀ {u v : JSVal}, jsValLT u v = true → jsValLT v u = false
  | .str a, .str b, h => by
    have hlt : a < b := jsStrLT_iff.mp h
    show jsStrLT b a = false
    rw [Bool.eq_false_iff]
    intro h2
    exact absurd (jsStrLT_iff.mp h2) (not_lt.mpr (le_of_lt hlt))
  | .num (some a), .num (some b), h => by
    have hlt : a < b := of_decide_eq_true h
    show decide (b < a) = false
    exact decide_eq_false (not_lt.mpr (le_of_lt hlt))
  | .num none, .num (some _), h => by cases h
  | .num (some _), .num none, h => by cases h
  | .num none, .num none, h => by cases h
  | .str _, .num (some _), h => by cases h
  | .str _, .num none, h => by cases h
  | .num (some _), .str _, h => by cases h
  | .num none, .str _, h => by cases h

/-- The comparator value order is transitive. -/
theorem jsValLT_trans : ∀ {u v w : JSVal},
    jsValLT u v = true → jsValLT v w = true → jsValLT u w = true
  | .str a, .str b, .str c, h1, h2 => by
    show jsStrLT a c = true
    exact jsStrLT_iff.mpr (lt_trans (jsStrLT_iff.mp h1) (jsStrLT_iff.mp h2))
  | .num (some a), .num (some b), .num (some c), h1, h2 => by
    show decide (a < c) = true
    exact decide_eq_true (lt_trans (of_decide_eq_true h1) (of_decide_eq_true h2))
  | .str _, .str _, .num _, _, h2 => by cases h2
  | .str _, .num (some _), _, h1, _ => by cases h1
  | .str _, .num none, _, h1, _ => by cases h1
  | .num (some _), .str _, _, h1, _ => by cases h1
  | .num none, .str _, _, h1, _ => by cases h1
  | .num (some _), .num (some _), .str _, _, h2 => by cases h2
  | .num none, .num (some _), _, h1, _ => by cases h1
  | .num none, .num none, _, h1, _ => by cases h1
  | .num (some _), .num none, _, _, h2 => by cases h2

/-- The comparator is antisymmetric as an integer function. -/
theorem jsCompare_swap (f : SortField) (dir : SortDir) (a b : Order) :
    jsCompare f dir a b = -(jsCompare f dir b a) := by
  by_cases h1 : jsValLT (sortVal f a) (sortVal f b) = true
  · have h2 := jsValLT_asymm h1
    cases dir <;> simp [jsCompare, h1, h2]
  · by_cases h2 : jsValLT (sortVal f b) (sortVal f a) = true
    · cases dir <;> simp [jsCompare, h1, h2]
    · cases dir <;> simp [jsCompare, h1, h2]

/-- The comparator vanishes on identical elements. -/
theorem jsCompare_self (f : SortField) (dir : SortDir) (a : Order) :
    jsCompare f dir a a = 0 := by
  by_cases h : jsValLT (sortVal f a) (sortVal f a) = true
  · have h2 := jsValLT_asymm h
    rw [h] at h2
    cases h2
  · simp [jsCompare, h]

/-- An ascending comparison is negative exactly when the first key is
strictly below the second. -/
theorem jsCompare_asc_neg (f : SortField) (a b : Order) :
    jsCompare f .asc a b < 0 ↔ jsValLT (sortVal f a) (sortVal f b) = true := by
  by_cases h1 : jsValLT (sortVal f a) (sortVal f b) = true
  · simp [jsCompare, h1]
  · by_cases h2 : jsValLT (sortVal f b) (sortVal f a) = true
    · simp [jsCompare, h1, h2]
    · simp [jsCompare, h1, h2]

/-- A descending comparison is negative exactly when the second key is
strictly below the first. -/
theorem jsCompare_desc_neg (f : SortField) (a b : Order) :
    jsCompare f .desc a b < 0 ↔ jsValLT (sortVal f b) (sortVal f a) = true := by
  by_cases h1 : jsValLT (sortVal f a) (sortVal f b) = true
  · have h2 := jsValLT_asymm h1
    simp [jsCompare, h1, h2]
  · by_cases h2 : jsValLT (sortVal f b) (sortVal f a) = true
    · simp [jsCompare, h1, h2]
    · simp [jsCompare, h1, h2]

/-- Inserting permutes the element onto the list. -/
theorem insertByCmp_perm {α : Type} (cmp : α → α → Int) (x : α) :
    ∀ l : List α, (insertByCmp cmp x l).Perm (x :: l) := by
  intro l
  induction l with
  | nil => exact List.Perm.refl _
  | cons y ys ih =>
    unfold insertByCmp
    by_cases h : cmp y x < 0
    · rw [if_pos h]
      exact (ih.cons y).trans (List.Perm.swap x y ys)
    · rw [if_neg h]

/-- Sorting permutes the list. -/
theorem sortByCmp_perm {α : Type} (cmp : α → α → Int) :
    ∀ l : List α, (sortByCmp cmp l).Perm l := by
  intro l
  induction l with
  | nil => exact List.Perm.refl _
  | cons x xs ih =>
    exact (insertByCmp_perm cmp x (sortByCmp cmp xs)).trans (ih.cons x)

/-- A list is a subsequence of any insertion into it. -/
theorem sublist_insertByCmp {α : Type} (cmp : α → α → Int) (x : α) :
    ∀ l : List α, l.Sublist (insertByCmp cmp x l) := by
  intro l
  induction l with
  | nil => exact List.nil_sublist _
  | cons y ys ih =>
    unfold insertByCmp
    by_cases h : cmp y x < 0
    · rw [if_pos h]
      exact ih.cons₂ y
    · rw [if_neg h]
      exact List.sublist_cons_self x (y :: ys)

/-- The inserted element lands before every element it does not strictly
follow: a tie, in particular, keeps the inserted element first. -/
theorem insertByCmp_tie {α : Type} (cmp : α → α → Int) (x y : α)
    (hty : ¬ cmp y x < 0) :
    ∀ l : List α, y ∈ l → [x, y].Sublist (insertByCmp cmp x l) := by
  intro l
  induction l with
  | nil =>
    intro h
    cases h
  | cons z zs ih =>
    intro hy
    unfold insertByCmp
    by_cases hz : cmp z x < 0
    · rw [if_pos hz]
      have hyz : y ∈ zs := by
        rcases List.mem_cons.mp hy with h | h
        · exact absurd (h ▸ hz) hty
        · exact h
      exact (ih hyz).cons z
    · rw [if_neg hz]
      exact (List.singleton_sublist.mpr hy).cons₂ x

/-- Stability of the modelled JS sort: a pair in input order whose
comparison ties stays in that order in the output. -/
theorem sortByCmp_stable {α : Type} (cmp : α → α → Int) (x y : α)
    (hty : ¬ cmp y x < 0) :
    ∀ l : List α, [x, y].Sublist l → [x, y].Sublist (sortByCmp cmp l) := by
  intro l
  induction l with
  | nil =>
    intro h
    cases h
  | cons z zs ih =>
    intro hs
    show [x, y].Sublist (insertByCmp cmp z (sortByCmp cmp zs))
    cases hs with
    | cons _ h =>
      exact (ih h).trans (sublist_insertByCmp cmp z (sortByCmp cmp zs))
    | cons₂ _ h =>
      have hy : y ∈ sortByCmp cmp zs :=
        ((sortByCmp_perm cmp zs).mem_iff).mpr (List.singleton_sublist.mp h)
      exact insertByCmp_tie cmp x y hty (sortByCmp cmp zs) hy

/-- Insertion preserves sortedness with respect to a relation compatible
with the comparator on the elements involved. -/
theorem insertByCmp_pairwise {α : Type} {R : α → α → Prop} (cmp : α → α → Int) (x : α) :
    ∀ l : List α,
      (∀ a ∈ x :: l, ∀ b ∈ x :: l, cmp a b < 0 → R a b) →
      (∀ a ∈ x :: l, ∀ b ∈ x :: l, ¬ cmp a b < 0 → R b a) →
      (∀ a ∈ x :: l, ∀ b ∈ x :: l, ∀ c ∈ x :: l, R a b → R b c → R a c) →
      List.Pairwise R l → List.Pairwise R (insertByCmp cmp x l) := by
  intro l
  induction l with
  | nil =>
    intro _ _ _ _
    exact List.pairwise_singleton R x
  | cons y ys ih =>
    intro hlt hnlt htr hp
    obtain ⟨hy, hys⟩ := List.pairwise_cons.mp hp
    unfold insertByCmp
    by_cases h : cmp y x < 0
    · rw [if_pos h]
      have hup : ∀ a ∈ x :: ys, a ∈ x :: y :: ys := by
        intro a ha
        rcases List.mem_cons.mp ha with rfl | h1
        · exact List.mem_cons_self a _
        · exact List.mem_cons_of_mem x (List.mem_cons_of_mem y h1)
      refine List.pairwise_cons.mpr ⟨?_, ?_⟩
      · intro z hz
        rcases List.mem_cons.mp (((insertByCmp_perm cmp x ys).mem_iff).mp hz) with rfl | hzys
        · exact hlt y (by simp) z (by simp) h
        · exact hy z hzys
      · refine ih ?_ ?_ ?_ hys
        · intro a ha b hb
          exact hlt a (hup a ha) b (hup b hb)
        · intro a ha b hb
          exact hnlt a (hup a ha) b (hup b hb)
        · intro a ha b hb c hc
          exact htr a (hup a ha) b (hup b hb) c (hup c hc)
    · rw [if_neg h]
      refine List.pairwise_cons.mpr ⟨?_, hp⟩
      intro z hz
      have hxy : R x y := hnlt y (by simp) x (by simp) h
      rcases List.mem_cons.mp hz with rfl | hzys
      · exact hxy
      · exact htr x (by simp) y (by simp) z (by simp [hzys]) hxy (hy z hzys)

/-- The modelled JS sort is sorted with respect to any relation
compatible with the comparator on the list's elements. -/
theorem sortByCmp_pairwise {α : Type} {R : α → α → Prop} (cmp : α → α → Int) :
    ∀ l : List α,
      (∀ a ∈ l, ∀ b ∈ l, cmp a b < 0 → R a b) →
      (∀ a ∈ l, ∀ b ∈ l, ¬ cmp a b < 0 → R b a) →
      (∀ a ∈ l, ∀ b ∈ l, ∀ c ∈ l, R a b → R b c → R a c) →
      List.Pairwise R (sortByCmp cmp l) := by
  intro l
  induction l with
  | nil =>
    intro _ _ _
    exact List.Pairwise.nil
  | cons x xs ih =>
    intro hlt hnlt htr
    show List.Pairwise R (insertByCmp cmp x (sortByCmp cmp xs))
    have hmem : ∀ a ∈ x :: sortByCmp cmp xs, a ∈ x :: xs := by
      intro a ha
      rcases List.mem_cons.mp ha with rfl | h
      · exact List.mem_cons_self a xs
      · exact List.mem_cons_of_mem x (((sortByCmp_perm cmp xs).mem_iff).mp h)
    refine insertByCmp_pairwise cmp x (sortByCmp cmp xs) ?_ ?_ ?_ ?_
    · intro a ha b hb
      exact hlt a (hmem a ha) b (hmem b hb)
    · intro a ha b hb
      exact hnlt a (hmem a ha) b (hmem b hb)
    · intro a ha b hb c hc
      exact htr a (hmem a ha) b (hmem b hb) c (hmem c hc)
    · refine ih ?_ ?_ ?_
      · intro a ha b hb
        exact hlt a (List.mem_cons_of_mem x ha) b (List.mem_cons_of_mem x hb)
      · intro a ha b hb
        exact hnlt a (List.mem_cons_of_mem x ha) b (List.mem_cons_of_mem x hb)
      · intro a ha b hb c hc
        exact htr a (List.mem_cons_of_mem x ha) b (List.mem_cons_of_mem x hb) c
          (List.mem_cons_of_mem x hc)

/-- With a tie excluded, a non-negative comparison against an element is
a strictly positive one, so the reverse comparison is negative. -/
theorem jsCompare_neg_of_not_neg {f : SortField} {dir : SortDir} {a b : Order}
    (h1 : ¬ jsCompare f dir b a < 0) (h2 : jsCompare f dir a b ≠ 0) :
    jsCompare f dir a b < 0 := by
  have hs := jsCompare_swap f dir b a
  omega

/-- Two orders with identical created timestamps but different ids. -/
def tieA : Order :=
  { id := "1", customer_name := "Asha", email := "a@x.com",
    phone_number := "9000000000", pickup_date := "2026-02-20",
    time_slot := "Morning", special_requests := none, status := "Pending",
    created_at := "2026-02-15T10:00:00Z" }

/-- Second order of the tie, created at the same instant. -/
def tieB : Order :=
  { id := "2", customer_name := "Bina", email := "b@x.com",
    phone_number := "9000000001", pickup_date := "2026-02-21",
    time_slot := "Evening", special_requests := none, status := "Completed",
    created_at := "2026-02-15T10:00:00Z" }

/-- Counterexample to C4 as stated: on two orders with equal sort keys
the stable sort leaves both directions in input order, so the descending
output is not the reverse of the ascending output. -/
theorem C4_sort_counterexample :
    jsCompare .created_at .asc tieA tieB = 0 ∧
    sortOrders .created_at .desc [tieA, tieB]
      ≠ (sortOrders .created_at .asc [tieA, tieB]).reverse := by
  decide

/-- C4 amended: the sort is a permutation; it is stable — a pair in
input order whose keys compare equal keeps that order in the output, for
either direction; and descending output is exactly the reverse of
ascending output whenever the sort keys are pairwise distinct (ties
break the reversal, as equal-key pairs stay in input order both ways). -/
theorem C4_sort_amended (f : SortField) (dir : SortDir) (l : List Order) :
    (sortOrders f dir l).Perm l ∧
    (∀ x y : Order, jsCompare f dir x y = 0 → [x, y].Sublist l →
      [x, y].Sublist (sortOrders f dir l)) ∧
    (l.Pairwise (fun a b => jsCompare f .asc a b ≠ 0) →
      sortOrders f .desc l = (sortOrders f .asc l).reverse) := by
  refine ⟨sortByCmp_perm _ l, ?_, ?_⟩
  · intro x y h0 hsub
    have hty : ¬ jsCompare f dir y x < 0 := by
      have hs := jsCompare_swap f dir y x
      omega
    exact sortByCmp_stable (jsCompare f dir) x y hty l hsub
  · intro hne
    have hsymne : Symmetric (fun a b : Order => jsCompare f .asc a b ≠ 0) := by
      intro a b h h2
      have hs := jsCompare_swap f .asc a b
      omega
    have hall := hne.forall hsymne
    have hstrict : ∀ a b : Order, ¬ jsCompare f .asc b a < 0 → jsCompare f .asc a b ≠ 0 →
        jsValLT (sortVal f a) (sortVal f b) = true := by
      intro a b h1 h2
      rw [← jsCompare_asc_neg]
      exact jsCompare_neg_of_not_neg h1 h2
    -- weak sortedness of the ascending output
    have hp1 : List.Pairwise (fun a b => ¬ jsCompare f .asc b a < 0) (sortOrders f .asc l) := by
      refine sortByCmp_pairwise (jsCompare f .asc) l ?_ ?_ ?_
      · intro a _ b _ hcmp
        have hs := jsCompare_swap f .asc b a
        omega
      · intro a _ b _ hcmp
        exact hcmp
      · intro a ha b hb c hc rab rbc hca
        by_cases hab : a = b
        · exact rbc (hab ▸ hca)
        · by_cases hbc : b = c
          · exact rab (hbc ▸ hca)
          · by_cases hac : a = c
            · rw [hac, jsCompare_self] at hca
              omega
            · have h1 := hstrict a b rab (hall ha hb hab)
              have h2 := hstrict b c rbc (hall hb hc hbc)
              have h3 := jsValLT_trans h1 h2
              rw [jsCompare_asc_neg] at hca
              rw [jsValLT_asymm h3] at hca
              cases hca
    have hpne : List.Pairwise (fun a b : Order => jsCompare f .asc a b ≠ 0)
        (sortOrders f .asc l) :=
      ((sortByCmp_perm (jsCompare f .asc) l).pairwise_iff (fun {x y} h => hsymne h)).mpr hne
    have hascS : List.Pairwise (fun a b => jsCompare f .asc a b < 0) (sortOrders f .asc l) :=
      (hp1.and hpne).imp (fun h => jsCompare_neg_of_not_neg h.1 h.2)
    -- strict sortedness of the descending output
    have hne2 : l.Pairwise (fun a b => jsCompare f .desc a b ≠ 0) := by
      refine hne.imp ?_
      intro a b h
      intro h2
      have hs1 := jsCompare_swap f .asc a b
      have hs2 := jsCompare_swap f .desc a b
      have hd1 := (jsCompare_asc_neg f a b).symm
      have hd2 := (jsCompare_desc_neg f a b).symm
      rcases lt_trichotomy (jsCompare f .asc a b) 0 with hlt | heq | hgt
      · have hv : jsValLT (sortVal f a) (sortVal f b) = true := (jsCompare_asc_neg f a b).mp hlt
        have : jsCompare f .desc b a < 0 := (jsCompare_desc_neg f b a).mpr hv
        omega
      · exact h heq
      · have hlt2 : jsCompare f .asc b a < 0 := by omega
        have hv : jsValLT (sortVal f b) (sortVal f a) = true := (jsCompare_asc_neg f b a).mp hlt2
        have : jsCompare f .desc a b < 0 := (jsCompare_desc_neg f a b).mpr hv
        omega
    have hsymne2 : Symmetric (fun a b : Order => jsCompare f .desc a b ≠ 0) := by
      intro a b h h2
      have hs := jsCompare_swap f .desc a b
      omega
    have hall2 := hne2.forall hsymne2
    have hstrict2 : ∀ a b : Order, ¬ jsCompare f .desc b a < 0 → jsCompare f .desc a b ≠ 0 →
        jsValLT (sortVal f b) (sortVal f a) = true := by
      intro a b h1 h2
      rw [← jsCompare_desc_neg]
      exact jsCompare_neg_of_not_neg h1 h2
    have hp2 : List.Pairwise (fun a b => ¬ jsCompare f .desc b a < 0) (sortOrders f .desc l) := by
      refine sortByCmp_pairwise (jsCompare f .desc) l ?_ ?_ ?_
      · intro a _ b _ hcmp
        have hs := jsCompare_swap f .desc b a
        omega
      · intro a _ b _ hcmp
        exact hcmp
      · intro a ha b hb c hc rab rbc hca
        by_cases hab : a = b
        · exact rbc (hab ▸ hca)
        · by_cases hbc : b = c
          · exact rab (hbc ▸ hca)
          · by_cases hac : a = c
            · rw [hac, jsCompare_self] at hca
              omega
            · have h1 := hstrict2 a b rab (hall2 ha hb hab)
              have h2 := hstrict2 b c rbc (hall2 hb hc hbc)
              have h3 := jsValLT_trans h2 h1
              rw [jsCompare_desc_neg] at hca
              rw [jsValLT_asymm h3] at hca
              cases hca
    have hpne2 : List.Pairwise (fun a b : Order => jsCompare f .desc a b ≠ 0)
        (sortOrders f .desc l) :=
      ((sortByCmp_perm (jsCompare f .desc) l).pairwise_iff (fun {x y} h => hsymne2 h)).mpr hne2
    have hdescS : List.Pairwise (fun a b => jsCompare f .desc a b < 0) (sortOrders f .desc l) :=
      (hp2.and hpne2).imp (fun h => jsCompare_neg_of_not_neg h.1 h.2)
    -- both sides are strictly sorted by the same total relation
    haveI : IsAntisymm Order (fun a b : Order => jsValLT (sortVal f b) (sortVal f a) = true) := by
      constructor
      intro a b h1 h2
      rw [jsValLT_asymm h1] at h2
      cases h2
    refine List.eq_of_perm_of_sorted
      (r := fun a b : Order => jsValLT (sortVal f b) (sortVal f a) = true) ?_ ?_ ?_
    · exact (sortByCmp_perm (jsCompare f .desc) l).trans
        (((List.reverse_perm (sortOrders f .asc l)).trans
          (sortByCmp_perm (jsCompare f .asc) l)).symm)
    · exact hdescS.imp (fun h => (jsCompare_desc_neg f _ _).mp h)
    · rw [List.Sorted, List.pairwise_reverse]
      exact hascS.imp (fun h => (jsCompare_asc_neg f _ _).mp h)

/-- Three orders with pairwise-distinct created timestamps. -/
def sortSample : List Order :=
  [{ id := "1", customer_name := "Asha", email := "a@x.com",
     phone_number := "9000000000", pickup_date := "2026-02-20",
     time_slot := "Morning", special_requests := none, status := "Pending",
     created_at := "2026-02-15T10:00:00Z" },
   { id := "2", customer_name := "Bina", email := "b@x.com",
     phone_number := "9000000001", pickup_date := "2026-02-18",
     time_slot := "Evening", special_requests := none, status := "Completed",
     created_at := "2026-02-13T09:00:00Z" },
   { id := "3", customer_name := "Chand", email := "c@x.com",
     phone_number := "9000000002", pickup_date := "2026-02-19",
     time_slot := "Night", special_requests := none, status := "Pending",
     created_at := "2026-02-14T11:30:00Z" }]

/-- Amended-sort witness: the tied pair keeps input order under the
descending sort, and on a distinct-keys list descending is the exact
reverse of ascending. -/
theorem C4_sort_amended_witness :
    [tieA, tieB].Sublist (sortOrders .created_at .desc [tieA, tieB]) ∧
    sortOrders .created_at .desc sortSample
      = (sortOrders .created_at .asc sortSample).reverse :=
  ⟨(C4_sort_amended .created_at .desc [tieA, tieB]).2.1 tieA tieB (by decide) (by decide),
   (C4_sort_amended .created_at .asc sortSample).2.2 (by decide)⟩

/-! ### Natural per-field orders (claim C6) -/

/-- Validity of the sort key: numeric fields must parse to an instant;
string fields are always valid. -/
def validKey : SortField → Order → Prop
  | .created_at, o => (jsTime o.created_at).isSome = true
  | .pickup_date, o => (jsTime o.pickup_date).isSome = true
  | .customer_name, _ => True
  | .phone_number, _ => True
  | .time_slot, _ => True

/-- Numeric comparison of parsed instants; undefined (false) when either
side failed to parse. -/
def numLE : Option Int → Option Int → Prop
  | some x, some y => x ≤ y
  | _, _ => False

/-- The claim's natural order for each sortable field: timestamps and
dates numerically by instant, customer name case-insensitively, phone
and slot as raw strings. -/
def naturalLE : SortField → Order → Order → Prop
  | .created_at, a, b => numLE (jsTime a.created_at) (jsTime b.created_at)
  | .pickup_date, a, b => numLE (jsTime a.pickup_date) (jsTime b.pickup_date)
  | .customer_name, a, b => jsToLower a.customer_name ≤ jsToLower b.customer_name
  | .phone_number, a, b => a.phone_number ≤ b.phone_number
  | .time_slot, a, b => a.time_slot ≤ b.time_slot

/-- A strict numeric key comparison yields the numeric order. -/
theorem numLE_of_valLT : ∀ {oa ob : Option Int},
    jsValLT (.num oa) (.num ob) = true → numLE oa ob
  | some _, some _, h => le_of_lt (of_decide_eq_true h)
  | some _, none, h => by cases h
  | none, some _, h => by cases h
  | none, none, h => by cases h

/-- A failed strict numeric comparison of two valid keys yields the
reverse numeric order. -/
theorem numLE_of_not_valLT : ∀ {oa ob : Option Int}, oa.isSome = true → ob.isSome = true →
    jsValLT (.num oa) (.num ob) = false → numLE ob oa
  | some x, some y, _, _, h => not_lt.mp (of_decide_eq_false h)
  | none, _, ha, _, _ => by cases ha
  | some _, none, _, hb, _ => by cases hb

/-- The numeric order is transitive. -/
theorem numLE_trans : ∀ {a b c : Option Int}, numLE a b → numLE b c → numLE a c
  | some _, some _, some _, h1, h2 => le_trans h1 h2
  | some _, some _, none, _, h2 => h2.elim
  | some _, none, _, h1, _ => h1.elim
  | none, _, _, h1, _ => h1.elim

/-- A strict string key comparison yields the string order. -/
theorem strLE_of_valLT {a b : String} (h : jsValLT (.str a) (.str b) = true) : a ≤ b :=
  le_of_lt (jsStrLT_iff.mp h)

/-- A failed strict string comparison yields the reverse string order. -/
theorem strLE_of_not_valLT {a b : String} (h : jsValLT (.str a) (.str b) = false) : b ≤ a := by
  have h2 : jsStrLT a b = false := h
  exact not_lt.mp (fun hl => by rw [jsStrLT_iff.mpr hl] at h2; cases h2)

/-- C6: for each of the five sort fields, sorting in either direction
permutes the filtered list, and — provided the numeric fields parse —
the ascending output is pairwise ordered by the field's natural order
and the descending output by its flip. -/
theorem C6_sort_fields (f : SortField) (l : List Order) (hv : ∀ o ∈ l, validKey f o) :
    (sortOrders f .asc l).Perm l ∧
    List.Pairwise (naturalLE f) (sortOrders f .asc l) ∧
    (sortOrders f .desc l).Perm l ∧
    List.Pairwise (fun a b => naturalLE f b a) (sortOrders f .desc l) := by
  have hofval : ∀ a b : Order,
      jsValLT (sortVal f a) (sortVal f b) = true → naturalLE f a b := by
    intro a b h
    cases f
    case created_at => exact numLE_of_valLT h
    case pickup_date => exact numLE_of_valLT h
    case customer_name => exact strLE_of_valLT h
    case phone_number => exact strLE_of_valLT h
    case time_slot => exact strLE_of_valLT h
  have hofnval : ∀ a ∈ l, ∀ b ∈ l,
      jsValLT (sortVal f a) (sortVal f b) = false → naturalLE f b a := by
    intro a ha b hb h
    cases f
    case created_at => exact numLE_of_not_valLT (hv a ha) (hv b hb) h
    case pickup_date => exact numLE_of_not_valLT (hv a ha) (hv b hb) h
    case customer_name => exact strLE_of_not_valLT h
    case phone_number => exact strLE_of_not_valLT h
    case time_slot => exact strLE_of_not_valLT h
  have htr : ∀ a b c : Order, naturalLE f a b → naturalLE f b c → naturalLE f a c := by
    intro a b c h1 h2
    cases f
    case created_at => exact numLE_trans h1 h2
    case pickup_date => exact numLE_trans h1 h2
    case customer_name => exact le_trans h1 h2
    case phone_number => exact le_trans h1 h2
    case time_slot => exact le_trans h1 h2
  refine ⟨sortByCmp_perm _ l, ?_, sortByCmp_perm _ l, ?_⟩
  · refine sortByCmp_pairwise (jsCompare f .asc) l ?_ ?_ ?_
    · intro a _ b _ hcmp
      exact hofval a b ((jsCompare_asc_neg f a b).mp hcmp)
    · intro a ha b hb hcmp
      have hfalse : jsValLT (sortVal f a) (sortVal f b) = false := by
        rw [Bool.eq_false_iff]
        intro hc
        exact hcmp ((jsCompare_asc_neg f a b).mpr hc)
      exact hofnval a ha b hb hfalse
    · intro a _ b _ c _ h1 h2
      exact htr a b c h1 h2
  · refine sortByCmp_pairwise (jsCompare f .desc) l ?_ ?_ ?_
    · intro a _ b _ hcmp
      exact hofval b a ((jsCompare_desc_neg f a b).mp hcmp)
    · intro a ha b hb hcmp
      have hfalse : jsValLT (sortVal f b) (sortVal f a) = false := by
        rw [Bool.eq_false_iff]
        intro hc
        exact hcmp ((jsCompare_desc_neg f a b).mpr hc)
      exact hofnval b hb a ha hfalse
    · intro a _ b _ c _ h1 h2
      exact htr c b a h2 h1

/-- Natural-order witness: the concrete three-order list sorted
ascending by created timestamp is a permutation and pairwise ordered by
instant. -/
theorem C6_sort_fields_witness :
    (sortOrders .created_at .asc sortSample).Perm sortSample ∧
    List.Pairwise (naturalLE .created_at) (sortOrders .created_at .asc sortSample) :=
  ⟨(C6_sort_fields .created_at sortSample (by intro o ho; fin_cases ho <;> (unfold validKey; decide))).1,
   (C6_sort_fields .created_at sortSample (by intro o ho; fin_cases ho <;> (unfold validKey; decide))).2.1⟩
